import Mathlib

/-!
# become: in-place identity substitution (`src/become/_become.cc`)

A shallow embedding of `become_impl` and theorems about it.

* Raw memory is byte addressed.  A slot is the 8 bytes starting at an address,
  read and written little-endian (the function pins `r12`, so the target is
  x86-64).  The scan loop reads and writes it through `PyObject **p`.
* `Py_REFCNT(o)` is the word of raw memory at the address of `o`: the scan can
  read and rewrite it like any other slot, and line 64 reads both counts from
  the memory the scan has left and stores the sum back into it.
* `Py_TYPE(o)->tp_flags` is read from raw memory through an accessor that the
  state carries: the layout of type objects is not part of this repository.
* Calls into the allocator (`PyObject_GC_UnTrack`, `PyObject_GC_Del`,
  `PyObject_Del`) and the reference-count transfer are recorded, in program
  order, in a log; what the allocator does to the freed storage is not
  described.
* The `ranges` argument is a list of Python values, described just far enough
  for the checks the function makes on them.
-/

namespace Become

/-! ## Raw memory -/

/-- Byte-addressed raw memory: the byte stored at an address is read modulo 256. -/
abbrev Mem := Nat → Nat

/-- Little-endian value of the `n` bytes starting at address `p`. -/
def readBytes (m : Mem) (p : Nat) : Nat → Nat
  | 0 => 0
  | n + 1 => m p % 256 + 256 * readBytes m (p + 1) n

/-- The load `*p` of a pointer-sized slot (`sizeof(PyObject*) = 8`). -/
def readWord (m : Mem) (p : Nat) : Nat := readBytes m p 8

/-- The store `*p = v` of a pointer-sized slot: the 8 bytes `[p, p + 8)` receive
the little-endian bytes of `v`; every other byte is left as it was. -/
def writeWord (m : Mem) (p v : Nat) : Mem :=
  fun a => if p ≤ a ∧ a < p + 8 then v / 256 ^ (a - p) % 256 else m a

/-! ## Python-level values and interpreter state -/

/-- An element of a range descriptor, as seen by `py::long_::object(slice[i])`:
either a Python `int` with its value, or some other object. -/
inductive Item where
  | long (v : Int)
  | nonLong
deriving DecidableEq, Repr

/-- An element of `ranges`, as seen by `py::tuple::object`: a tuple with its
items, or some other object. -/
inductive Slice where
  | tuple (items : List Item)
  | nonTuple
deriving DecidableEq, Repr

/-- The exceptions that can be left in the interpreter's error indicator. -/
inductive PyErr where
  /-- `TypeError: cannot use 'become' with non-heaptypes` (line 13). -/
  | TypeError
  /-- `AssertionError: expected tuples of length 2, got: len` (line 36). -/
  | AssertionError (len : Nat)
  /-- The error a libpy wrapper sets when it is built from an object of the
  wrong type (a non-tuple element, a non-int bound). -/
  | WrapperError
  /-- `OverflowError` set by `PyLong_AsSize_t`. -/
  | OverflowError
deriving DecidableEq, Repr

/-- Side effects on the object runtime, recorded in program order. -/
inductive Effect where
  /-- `Py_REFCNT(o) += n` (line 64). -/
  | RefcntAdd (o n : Nat)
  /-- `PyObject_GC_UnTrack(o)` (line 67). -/
  | GC_UnTrack (o : Nat)
  /-- `PyObject_GC_Del(o)` (line 68). -/
  | GC_Del (o : Nat)
  /-- `PyObject_Del(o)` (line 71). -/
  | Del (o : Nat)
deriving DecidableEq, Repr

/-- The state `become_impl` runs against. -/
structure State where
  /-- Raw memory, object headers included, as the stores of `become_impl` itself
  leave it. -/
  mem : Mem
  /-- The read `Py_TYPE(o)->tp_flags` of the object at address `o`, from a given
  memory. -/
  tp_flags : Mem → Nat → Nat
  /-- The error indicator (`PyErr_Occurred()`). -/
  err : Option PyErr
  /-- Effects performed so far, oldest first. -/
  log : List Effect

/-- `Py_REFCNT(o)`: the `ob_refcnt` field, the first word of the object at
address `o`. -/
def Py_REFCNT (m : Mem) (o : Nat) : Nat := readWord m o

/-- `Py_TPFLAGS_HEAPTYPE` (CPython `object.h`): bit 9. -/
def Py_TPFLAGS_HEAPTYPE : Nat := 1 <<< 9

/-- `Py_TPFLAGS_HAVE_GC` (CPython `object.h`): bit 14. -/
def Py_TPFLAGS_HAVE_GC : Nat := 1 <<< 14

/-- `PyLong_AsSize_t` (CPython C API, reached through `as_size_t()`): the value
when it fits a `size_t`; otherwise `(size_t)-1` with `OverflowError` raised.
The second component tells whether the error was raised. -/
def PyLong_AsSize_t (v : Int) : Nat × Bool :=
  if 0 ≤ v ∧ v < 2 ^ 64 then (v.toNat, false) else (2 ^ 64 - 1, true)

/-! ## The scan loop (lines 51-58) -/

/-- The loop `for (p = start; p < stop; ++p) if (*p == ob) { ++changed; *p = to_become; }`
started at `p`, with `++p` advancing by one pointer (8 bytes).  The first
argument bounds the number of iterations; `scanRange` supplies `stop - start`,
which the loop never exhausts (`scanLoop_fuel`).  Addresses are unbounded
naturals: stepping a pointer past the end of the address space has no defined
meaning in the source. -/
def scanLoop (ob to_become stop : Nat) : Nat → Nat → Mem → Nat → Mem × Nat
  | 0, _, m, changed => (m, changed)
  | fuel + 1, p, m, changed =>
    if p < stop then
      if readWord m p = ob then
        scanLoop ob to_become stop fuel (p + 8) (writeWord m p to_become) (changed + 1)
      else
        scanLoop ob to_become stop fuel (p + 8) m changed
    else (m, changed)

/-- The scan of one range `[start, stop)`. -/
def scanRange (ob to_become start stop : Nat) (m : Mem) (changed : Nat) : Mem × Nat :=
  scanLoop ob to_become stop (stop - start) start m changed

/-! ## The loop over `ranges` (lines 27-59) -/

/-- The `for (slice : ranges)` loop.  The result is `none` when the function
returns `nullptr` from inside the loop and `some changed` when the loop runs to
its end. -/
def scanRanges (ob to_become : Nat) : List Slice → State → Nat → Option Nat × State
  | [], st, changed => (some changed, st)
  | Slice.nonTuple :: _, st, _ =>
    -- `slice.len()` is -1 and the wrapper has set an error (lines 31-32, 41)
    (none, { st with err := some PyErr.WrapperError })
  | Slice.tuple [a, b] :: rest, st, changed =>
    match a, b with
    | Item.long s, Item.long e =>
      -- lines 51-52: the conversions are not checked
      let start := PyLong_AsSize_t s
      let stop := PyLong_AsSize_t e
      let st1 : State :=
        if start.2 || stop.2 then { st with err := some PyErr.OverflowError } else st
      let r := scanRange ob to_become start.1 stop.1 st1.mem changed
      scanRanges ob to_become rest { st1 with mem := r.1 } r.2
    | _, _ =>
      -- lines 47-49: one of the `py::long_::object`s is null
      (none, { st with err := some PyErr.WrapperError })
  | Slice.tuple items :: _, st, _ =>
    -- lines 30-42: a tuple of another length
    (none, if st.err.isSome then st else { st with err := some (PyErr.AssertionError items.length) })

/-! ## `become_impl` -/

/-- The reclamation of `ob` (lines 66-72); the flags are read from the memory
of that moment. -/
def reclaim (ob : Nat) (st : State) : State :=
  if st.tp_flags st.mem ob &&& Py_TPFLAGS_HAVE_GC ≠ 0 then
    { st with log := st.log ++ [Effect.GC_UnTrack ob, Effect.GC_Del ob] }
  else
    { st with log := st.log ++ [Effect.Del ob] }

/-- The function `become_impl(ob, to_become, ranges)`: the returned count
(`none` for `nullptr`) and the state it leaves.  Line 64,
`Py_REFCNT(to_become) += Py_REFCNT(ob_register)`, reads both counts from the
memory the scan has left and stores the sum in the word at `to_become`; the sum
of two `Py_ssize_t` is kept modulo `2 ^ 64`. -/
def become_impl (ob to_become : Nat) (ranges : List Slice) (st : State) : Option Nat × State :=
  if st.tp_flags st.mem ob &&& Py_TPFLAGS_HEAPTYPE = 0 ∨
      st.tp_flags st.mem to_become &&& Py_TPFLAGS_HEAPTYPE = 0 then
    (none, { st with err := some PyErr.TypeError })
  else
    match scanRanges ob to_become ranges st 0 with
    | (none, st1) => (none, st1)
    | (some changed, st1) =>
      let n := Py_REFCNT st1.mem ob
      let st2 : State :=
        { st1 with
          mem := writeWord st1.mem to_become ((Py_REFCNT st1.mem to_become + n) % 2 ^ 64)
          log := st1.log ++ [Effect.RefcntAdd to_become n] }
      (some changed, reclaim ob st2)

/-! ## Vocabulary for the statements -/

/-- The slot addresses the loop of lines 51-53 visits for `[start, stop)`:
`start, start + 8, start + 16, ...` as long as the address is below `stop`. -/
def slotAddrs (start stop : Nat) : List Nat :=
  (List.range ((stop - start + 7) / 8)).map (fun i => start + 8 * i)

/-- One visit of the loop body (lines 54-57) to the slot at `p`. -/
def visit (ob to_become : Nat) (s : Mem × Nat) (p : Nat) : Mem × Nat :=
  if readWord s.1 p = ob then (writeWord s.1 p to_become, s.2 + 1) else s

/-- The descriptor `(start, stop)` as a Python 2-tuple of ints. -/
def mkSlice (r : Nat × Nat) : Slice := Slice.tuple [Item.long r.1, Item.long r.2]

/-- The slot addresses visited for a list of ranges, in visiting order. -/
def allSlots : List (Nat × Nat) → List Nat
  | [] => []
  | r :: rs => slotAddrs r.1 r.2 ++ allSlots rs

/-- The memory produced by visiting, in order, the slots of the ranges `rs` with
the loop body of lines 54-57. -/
def scanned (ob to_become : Nat) (rs : List (Nat × Nat)) (m : Mem) : Mem :=
  (List.foldl (visit ob to_become) (m, 0) (allSlots rs)).1

/-- The 8-byte slots at `p` and `q` share no byte. -/
def Apart (p q : Nat) : Prop := p + 8 ≤ q ∨ q + 8 ≤ p

instance (p q : Nat) : Decidable (Apart p q) :=
  inferInstanceAs (Decidable (p + 8 ≤ q ∨ q + 8 ≤ p))

/-- No two slots of the list overlap partially: any two are the same slot or
share no byte (the case when every slot address is 8-byte aligned). -/
def NoPartialOverlap (l : List Nat) : Prop := ∀ p ∈ l, ∀ q ∈ l, p = q ∨ Apart p q

instance (l : List Nat) : Decidable (NoPartialOverlap l) :=
  inferInstanceAs (Decidable (∀ p ∈ l, ∀ q ∈ l, p = q ∨ Apart p q))

/-- Descriptors the loop over `ranges` stops at with `nullptr`: a non-tuple, a
tuple whose length is not 2, a 2-tuple with a bound that is not an int. -/
def rejected : Slice → Bool
  | Slice.tuple [Item.long _, Item.long _] => false
  | _ => true

/-! ## Concrete inputs -/

/-- A state over memory `m` in which every object is of a heap type with cyclic
tracking, no error is pending and nothing has been logged. -/
def heapState (m : Mem) : State :=
  { mem := m,
    tp_flags := fun _ _ => Py_TPFLAGS_HEAPTYPE ||| Py_TPFLAGS_HAVE_GC,
    err := none, log := [] }

/-- Memory with an object at `0xA000` whose count is 3, an object at `0xB000`
whose count is 5, and the slots at `0x1000` and `0x1018` holding `0xA000`; every
other byte is 0. -/
def memA : Mem :=
  fun a => if a = 0x1001 ∨ a = 0x1019 then 0xA0
    else if a = 0xA000 then 3 else if a = 0xB000 then 5 else 0

/-- Memory with an object at `0xA000` whose count is 3 and an object at `0xB000`
whose count is 5; every other byte is 0. -/
def memCounts : Mem := fun a => if a = 0xA000 then 3 else if a = 0xB000 then 5 else 0

/-- Memory whose bytes `0x2000 .. 0x200B` are `00 10 00 00 00 10 00 00 00 10 00 00`:
the slots at `0x2000` and at `0x2004` both hold `0x100000001000`.  The object at
`0x100000001000` has count 3, the object at `0xB000` count 5. -/
def memOverlap : Mem :=
  fun a => if a = 0x2001 ∨ a = 0x2005 ∨ a = 0x2009 then 0x10
    else if a = 0x100000001000 then 3 else if a = 0xB000 then 5 else 0

/-- Memory whose bytes `0x2000 .. 0x200B` are `00 A0 00 00 00 A0 00 00 00 50 00 00`:
the slot at `0x2004` holds `0x50000000A000`, the slot at `0x2000` holds
`0xA0000000A000`.  The object at `0x50000000A000` has count 3, the object at
`0x5000` count 5. -/
def memShift : Mem :=
  fun a => if a = 0x2001 ∨ a = 0x2005 then 0xA0 else if a = 0x2009 then 0x50
    else if a = 0x50000000A000 then 3 else if a = 0x5000 then 5 else 0

/-- Memory in which the count word of the object at `0xA000` holds `0xA000`
(40960), the object's own address; the object at `0xB000` has count 5. -/
def memSelfCount : Mem := fun a => if a = 0xA001 then 0xA0 else if a = 0xB000 then 5 else 0

/-- Memory in which the count word of the object at `0xB000` holds `0xA000`, the
address of the object at `0xA000`, whose count is 3. -/
def memCountIsTarget : Mem := fun a => if a = 0xB001 then 0xA0 else if a = 0xA000 then 3 else 0

/-- Memory in which the object at `0xB000` has count `0x9FFD` and the object at
`0xA000` count 3. -/
def memCountBelow : Mem :=
  fun a => if a = 0xB000 then 0xFD else if a = 0xB001 then 0x9F else if a = 0xA000 then 3 else 0

/-- Memory in which the slot at `0xB004` holds `0xA000`, so that the count word
of the object at `0xB000` reads `0xA00000000005`; the object at `0xA000` has
count 3. -/
def memStraddle : Mem :=
  fun a => if a = 0xB000 then 5 else if a = 0xB005 then 0xA0 else if a = 0xA000 then 3 else 0

/-- A state over memory `m` in which every object is of a heap type without
cyclic tracking, no error is pending and nothing has been logged. -/
def plainHeapState (m : Mem) : State :=
  { mem := m,
    tp_flags := fun _ _ => Py_TPFLAGS_HEAPTYPE,
    err := none, log := [] }

/-- The state of `heapState memA` except that the type of the object at
`0xA000` is not a heap type. -/
def staticTargetState : State :=
  { mem := memA,
    tp_flags := fun _ o => if o = 0xA000 then Py_TPFLAGS_HAVE_GC
      else Py_TPFLAGS_HEAPTYPE ||| Py_TPFLAGS_HAVE_GC,
    err := none, log := [] }

/-! ## Raw memory and the scan loop -/

theorem writeWord_outside (m : Mem) (p v a : Nat) (h : a < p ∨ p + 8 ≤ a) :
    writeWord m p v a = m a := by
  unfold writeWord
  rw [if_neg]
  omega

theorem readBytes_congr (m m' : Mem) (n q : Nat)
    (h : ∀ a, q ≤ a → a < q + n → m a = m' a) : readBytes m q n = readBytes m' q n := by
  induction n generalizing q with
  | zero => rfl
  | succ n ih =>
    simp only [readBytes]
    rw [h q (le_refl _) (by omega), ih (q + 1) (fun a h1 h2 => h a (by omega) (by omega))]

theorem readWord_congr (m m' : Mem) (q : Nat)
    (h : ∀ a, q ≤ a → a < q + 8 → m a = m' a) : readWord m q = readWord m' q :=
  readBytes_congr m m' 8 q h

theorem readWord_writeWord_disj (m : Mem) (p v q : Nat) (h : q + 8 ≤ p ∨ p + 8 ≤ q) :
    readWord (writeWord m p v) q = readWord m q :=
  readWord_congr _ _ q (fun a h1 h2 => writeWord_outside m p v a (by omega))

theorem readBytes_of_bytes (m : Mem) (n q w : Nat)
    (h : ∀ i, i < n → m (q + i) % 256 = w / 256 ^ i % 256) :
    readBytes m q n = w % 256 ^ n := by
  induction n generalizing q w with
  | zero => simp [readBytes, Nat.mod_one]
  | succ n ih =>
    have h0 := h 0 (by omega)
    simp only [Nat.add_zero, pow_zero, Nat.div_one] at h0
    have ih1 := ih (q + 1) (w / 256) (fun i hi => by
      have := h (i + 1) (by omega)
      rw [Nat.div_div_eq_div_mul, ← pow_succ']
      rw [← this]
      congr 2
      omega)
    simp only [readBytes]
    rw [h0, ih1, pow_succ', Nat.mod_mul]

theorem readWord_writeWord_same (m : Mem) (p v : Nat) (hv : v < 2 ^ 64) :
    readWord (writeWord m p v) p = v := by
  have h := readBytes_of_bytes (writeWord m p v) 8 p v (fun i hi => by
    unfold writeWord
    rw [if_pos (by omega)]
    simp)
  unfold readWord
  rw [h]
  exact Nat.mod_eq_of_lt (by norm_num at hv ⊢; exact hv)

theorem slotAddrs_of_lt (p stop : Nat) (h : p < stop) :
    slotAddrs p stop = p :: slotAddrs (p + 8) stop := by
  unfold slotAddrs
  have e : (stop - p + 7) / 8 = (stop - (p + 8) + 7) / 8 + 1 := by omega
  rw [e, List.range_succ_eq_map]
  simp [List.map_map, Function.comp_def]
  intro a _
  omega

theorem slotAddrs_of_ge (p stop : Nat) (h : stop ≤ p) : slotAddrs p stop = [] := by
  unfold slotAddrs
  have e : (stop - p + 7) / 8 = 0 := by omega
  rw [e]; rfl

/-- With at least `stop - p` iterations allowed, the loop started at `p` is the
left-to-right pass of `visit` over `slotAddrs p stop`. -/
theorem scanLoop_eq (ob R stop : Nat) (fuel p : Nat) (m : Mem) (c : Nat) (h : stop - p ≤ fuel) :
    scanLoop ob R stop fuel p m c = List.foldl (visit ob R) (m, c) (slotAddrs p stop) := by
  induction fuel generalizing p m c with
  | zero =>
    rw [slotAddrs_of_ge p stop (by omega)]; rfl
  | succ fuel ih =>
    unfold scanLoop
    by_cases hp : p < stop
    · rw [if_pos hp, slotAddrs_of_lt p stop hp, List.foldl_cons]
      by_cases hv : readWord m p = ob
      · rw [if_pos hv, ih _ _ _ (by omega)]
        simp [visit, hv]
      · rw [if_neg hv, ih _ _ _ (by omega)]
        simp [visit, hv]
    · rw [if_neg hp, slotAddrs_of_ge p stop (by omega)]; rfl

theorem visit_fst_outside (ob R : Nat) (s : Mem × Nat) (p a : Nat) (h : a < p ∨ p + 8 ≤ a) :
    (visit ob R s p).1 a = s.1 a := by
  unfold visit
  split
  · exact writeWord_outside _ _ _ _ h
  · rfl

theorem foldl_visit_outside (ob R : Nat) (l : List Nat) (s : Mem × Nat) (a : Nat)
    (h : ∀ p ∈ l, a < p ∨ p + 8 ≤ a) :
    (List.foldl (visit ob R) s l).1 a = s.1 a := by
  induction l generalizing s with
  | nil => rfl
  | cons p l ih =>
    rw [List.foldl_cons, ih _ (fun q hq => h q (List.mem_cons_of_mem _ hq)),
      visit_fst_outside _ _ _ _ _ (h p (List.mem_cons_self _ _))]

theorem foldl_visit_apart (ob R : Nat) (l : List Nat) (s : Mem × Nat) (q : Nat)
    (h : ∀ p ∈ l, Apart p q) :
    readWord (List.foldl (visit ob R) s l).1 q = readWord s.1 q :=
  readWord_congr _ _ q (fun a h1 h2 => foldl_visit_outside ob R l s a (fun p hp => by
    have := h p hp
    unfold Apart at this
    omega))

theorem visit_apart (ob R : Nat) (s : Mem × Nat) (p q : Nat) (h : Apart p q) :
    readWord (visit ob R s p).1 q = readWord s.1 q :=
  readWord_congr _ _ q (fun a h1 h2 => visit_fst_outside ob R s p a (by
    unfold Apart at h
    omega))

theorem foldl_visit_clean (ob R : Nat) (l : List Nat) (s : Mem × Nat)
    (h : ∀ p ∈ l, readWord s.1 p ≠ ob) : List.foldl (visit ob R) s l = s := by
  induction l generalizing s with
  | nil => rfl
  | cons p l ih =>
    have hp : visit ob R s p = s := by
      unfold visit
      rw [if_neg (h p (List.mem_cons_self _ _))]
    rw [List.foldl_cons, hp]
    exact ih s (fun q hq => h q (List.mem_cons_of_mem _ hq))

theorem foldl_visit_count (ob R : Nat) (l : List Nat) (s : Mem × Nat)
    (h : l.Pairwise Apart) :
    (List.foldl (visit ob R) s l).2 = s.2 + l.countP (fun p => decide (readWord s.1 p = ob)) := by
  induction l generalizing s with
  | nil => rfl
  | cons p l ih =>
    rw [List.pairwise_cons] at h
    rw [List.foldl_cons, ih _ h.2, List.countP_cons]
    have hc : List.countP (fun q => decide (readWord (visit ob R s p).1 q = ob)) l
        = List.countP (fun q => decide (readWord s.1 q = ob)) l := by
      apply List.countP_congr
      intro q hq
      have hq' : readWord (visit ob R s p).1 q = readWord s.1 q :=
        visit_apart ob R s p q (h.1 q hq)
      rw [hq']
    rw [hc]
    unfold visit
    by_cases hv : readWord s.1 p = ob
    · simp [hv]; omega
    · simp [hv]

theorem foldl_visit_keeps (ob R : Nat) (l : List Nat) (s : Mem × Nat) (q : Nat)
    (h : ∀ p ∈ l, p = q ∨ Apart p q) (hv : readWord s.1 q ≠ ob) :
    readWord (List.foldl (visit ob R) s l).1 q = readWord s.1 q := by
  induction l generalizing s with
  | nil => rfl
  | cons p l ih =>
    rw [List.foldl_cons]
    have hstep : readWord (visit ob R s p).1 q = readWord s.1 q := by
      rcases h p (List.mem_cons_self _ _) with rfl | hd
      · unfold visit
        rw [if_neg hv]
      · exact visit_apart ob R s p q hd
    rw [ih _ (fun p' hp' => h p' (List.mem_cons_of_mem _ hp')) (by rw [hstep]; exact hv), hstep]

theorem foldl_visit_none_left (ob R : Nat) (hR : R < 2 ^ 64) (hne : ob ≠ R) (l : List Nat)
    (s : Mem × Nat) (h : NoPartialOverlap l) (q : Nat) (hq : q ∈ l) :
    readWord (List.foldl (visit ob R) s l).1 q ≠ ob := by
  induction l generalizing s with
  | nil => cases hq
  | cons p l ih =>
    rw [List.foldl_cons]
    have hl : NoPartialOverlap l := fun a ha b hb =>
      h a (List.mem_cons_of_mem _ ha) b (List.mem_cons_of_mem _ hb)
    by_cases hqm : q ∈ l
    · exact ih _ hl hqm
    · have hqp : q = p := by
        rcases List.mem_cons.1 hq with e | e
        · exact e
        · exact absurd e hqm
      subst hqp
      have hstep : readWord (visit ob R s q).1 q ≠ ob := by
        unfold visit
        by_cases hv : readWord s.1 q = ob
        · rw [if_pos hv]
          show readWord (writeWord s.1 q R) q ≠ ob
          rw [readWord_writeWord_same _ _ _ hR]
          exact fun e => hne e.symm
        · rw [if_neg hv]; exact hv
      rw [foldl_visit_keeps ob R l _ q (fun p' hp' =>
        h p' (List.mem_cons_of_mem _ hp') q (List.mem_cons_self _ _)) hstep]
      exact hstep

theorem foldl_visit_only_matched (ob R : Nat) (l : List Nat) (s : Mem × Nat)
    (h : NoPartialOverlap l) (a : Nat)
    (ha : ∀ p ∈ l, readWord s.1 p = ob → a < p ∨ p + 8 ≤ a) :
    (List.foldl (visit ob R) s l).1 a = s.1 a := by
  induction l generalizing s with
  | nil => rfl
  | cons p l ih =>
    rw [List.foldl_cons]
    have hl : NoPartialOverlap l := fun x hx y hy =>
      h x (List.mem_cons_of_mem _ hx) y (List.mem_cons_of_mem _ hy)
    by_cases hv : readWord s.1 p = ob
    · have hap := ha p (List.mem_cons_self _ _) hv
      have hstep : (visit ob R s p).1 a = s.1 a := visit_fst_outside ob R s p a hap
      rw [ih _ hl (fun p' hp' hv' => by
        rcases h p' (List.mem_cons_of_mem _ hp') p (List.mem_cons_self _ _) with e | e
        · rw [e]; exact hap
        · exact ha p' (List.mem_cons_of_mem _ hp')
            ((visit_apart ob R s p p' (by
              unfold Apart at e ⊢
              omega)).symm.trans hv')), hstep]
    · have hs : visit ob R s p = s := by
        unfold visit
        rw [if_neg hv]
      rw [hs]
      exact ih s hl (fun p' hp' => ha p' (List.mem_cons_of_mem _ hp'))

theorem PyLong_AsSize_t_natCast (n : Nat) (h : n < 2 ^ 64) : PyLong_AsSize_t (n : Int) = (n, false) := by
  unfold PyLong_AsSize_t
  rw [if_pos ⟨Int.natCast_nonneg n, by exact_mod_cast h⟩]
  simp

theorem scanRange_eq (ob R start stop : Nat) (m : Mem) (c : Nat) :
    scanRange ob R start stop m c = List.foldl (visit ob R) (m, c) (slotAddrs start stop) :=
  scanLoop_eq ob R stop (stop - start) start m c (le_refl _)

theorem scanRanges_mkSlice_cons (ob R : Nat) (r : Nat × Nat) (rest : List Slice) (st : State)
    (c : Nat) (h : r.1 < 2 ^ 64 ∧ r.2 < 2 ^ 64) :
    scanRanges ob R (mkSlice r :: rest) st c =
      scanRanges ob R rest
        { st with mem := (List.foldl (visit ob R) (st.mem, c) (slotAddrs r.1 r.2)).1 }
        (List.foldl (visit ob R) (st.mem, c) (slotAddrs r.1 r.2)).2 := by
  have h1 := PyLong_AsSize_t_natCast _ h.1
  have h2 := PyLong_AsSize_t_natCast _ h.2
  unfold mkSlice
  rw [scanRanges]
  simp only [h1, h2, scanRange_eq]
  rfl

theorem scanRanges_wf_append (ob R : Nat) (rs : List (Nat × Nat)) (rest : List Slice)
    (st : State) (c : Nat) (hwf : ∀ r ∈ rs, r.1 < 2 ^ 64 ∧ r.2 < 2 ^ 64) :
    scanRanges ob R (rs.map mkSlice ++ rest) st c =
      scanRanges ob R rest
        { st with mem := (List.foldl (visit ob R) (st.mem, c) (allSlots rs)).1 }
        (List.foldl (visit ob R) (st.mem, c) (allSlots rs)).2 := by
  induction rs generalizing st c with
  | nil => rfl
  | cons r rs ih =>
    rw [List.map_cons, List.cons_append,
      scanRanges_mkSlice_cons ob R r _ st c (hwf r (List.mem_cons_self _ _)),
      ih _ _ (fun r' hr' => hwf r' (List.mem_cons_of_mem _ hr'))]
    simp only [allSlots, List.foldl_append]

theorem scanRanges_skip (ob R : Nat) (pre post : List Slice) (s e : Nat)
    (hs : s < 2 ^ 64) (he : e < 2 ^ 64) (hse : e ≤ s) (st : State) (c : Nat) :
    scanRanges ob R (pre ++ mkSlice (s, e) :: post) st c = scanRanges ob R (pre ++ post) st c := by
  induction pre generalizing st c with
  | nil =>
    rw [List.nil_append, List.nil_append, scanRanges_mkSlice_cons ob R (s, e) post st c ⟨hs, he⟩,
      slotAddrs_of_ge s e hse]
    rfl
  | cons d pre ih =>
    rw [List.cons_append, List.cons_append]
    cases d with
    | nonTuple => simp only [scanRanges]
    | tuple items =>
      match items with
      | [] => simp only [scanRanges]
      | [_] => simp only [scanRanges]
      | [Item.long a, Item.long b] => simp only [scanRanges]; exact ih _ _
      | [Item.long a, Item.nonLong] => simp only [scanRanges]
      | [Item.nonLong, _] => simp only [scanRanges]
      | _ :: _ :: _ :: _ => simp only [scanRanges]

/-- The loop leaves through its own test `p < stop`: any iteration bound of at
least `stop - p` gives the result of the bound `scanRange` uses. -/
theorem scanLoop_fuel (ob R stop fuel p : Nat) (m : Mem) (c : Nat) (h : stop - p ≤ fuel) :
    scanLoop ob R stop fuel p m c = scanLoop ob R stop (stop - p) p m c := by
  rw [scanLoop_eq ob R stop fuel p m c h, scanLoop_eq ob R stop (stop - p) p m c (le_refl _)]

theorem mem_slotAddrs (start stop p : Nat) :
    p ∈ slotAddrs start stop ↔ ∃ i, p = start + 8 * i ∧ p < stop := by
  unfold slotAddrs
  simp only [List.mem_map, List.mem_range]
  constructor
  · rintro ⟨i, hi, rfl⟩
    exact ⟨i, rfl, by omega⟩
  · rintro ⟨i, rfl, hi⟩
    exact ⟨i, by omega, rfl⟩

theorem mem_allSlots (rs : List (Nat × Nat)) (p : Nat) :
    p ∈ allSlots rs ↔ ∃ r ∈ rs, p ∈ slotAddrs r.1 r.2 := by
  induction rs with
  | nil => simp [allSlots]
  | cons r rs ih => simp [allSlots, ih]

theorem countP_flip_one (f g : Nat → Bool) (L : List Nat) (p : Nat) (hnd : L.Nodup)
    (hp : p ∈ L) (hf : f p = true) (hg : g p = false) (h : ∀ q ∈ L, q ≠ p → f q = g q) :
    L.countP f = L.countP g + 1 := by
  induction L with
  | nil => cases hp
  | cons a L ih =>
    rw [List.nodup_cons] at hnd
    rw [List.countP_cons, List.countP_cons]
    by_cases hap : a = p
    · subst hap
      have hc : L.countP f = L.countP g :=
        List.countP_congr (fun q hq => by
          have hne : q ≠ a := fun e => hnd.1 (e ▸ hq)
          rw [h q (List.mem_cons_of_mem _ hq) hne])
      simp [hf, hg, hc]
    · have hpL : p ∈ L := by
        rcases List.mem_cons.1 hp with e | e
        · exact absurd e.symm hap
        · exact e
      have := ih hnd.2 hpL (fun q hq hne => h q (List.mem_cons_of_mem _ hq) hne)
      rw [this, h a (List.mem_cons_self _ _) hap]
      omega

theorem foldl_visit_count_dedup (ob R : Nat) (hR : R < 2 ^ 64) (hne : ob ≠ R) (l : List Nat)
    (s : Mem × Nat) (h : NoPartialOverlap l) :
    (List.foldl (visit ob R) s l).2
      = s.2 + l.dedup.countP (fun p => decide (readWord s.1 p = ob)) := by
  induction l generalizing s with
  | nil => rfl
  | cons p l ih =>
    have hl : NoPartialOverlap l := fun a ha b hb =>
      h a (List.mem_cons_of_mem _ ha) b (List.mem_cons_of_mem _ hb)
    rw [List.foldl_cons, ih _ hl]
    by_cases hv : readWord s.1 p = ob
    · have hs1 : (visit ob R s p).1 = writeWord s.1 p R := by
        unfold visit; rw [if_pos hv]
      have hs2 : (visit ob R s p).2 = s.2 + 1 := by
        unfold visit; rw [if_pos hv]
      have hagree : ∀ q ∈ l, q ≠ p →
          decide (readWord s.1 q = ob) = decide (readWord (visit ob R s p).1 q = ob) := by
        intro q hq hqp
        rcases h p (List.mem_cons_self _ _) q (List.mem_cons_of_mem _ hq) with e | e
        · exact absurd e.symm hqp
        · rw [visit_apart ob R s p q e]
      have hp1 : decide (readWord (visit ob R s p).1 p = ob) = false := by
        rw [hs1, readWord_writeWord_same _ _ _ hR]
        exact decide_eq_false (fun e => hne e.symm)
      rw [hs2]
      by_cases hpl : p ∈ l
      · rw [List.dedup_cons_of_mem hpl,
          countP_flip_one (fun q => decide (readWord s.1 q = ob))
            (fun q => decide (readWord (visit ob R s p).1 q = ob)) l.dedup p
            (List.nodup_dedup l) (List.mem_dedup.2 hpl) (decide_eq_true hv) hp1
            (fun q hq hqp => hagree q (List.mem_dedup.1 hq) hqp)]
        omega
      · rw [List.dedup_cons_of_not_mem hpl, List.countP_cons]
        have hc : l.dedup.countP (fun q => decide (readWord (visit ob R s p).1 q = ob))
            = l.dedup.countP (fun q => decide (readWord s.1 q = ob)) :=
          List.countP_congr (fun q hq => by
            have hql := List.mem_dedup.1 hq
            have hqp : q ≠ p := fun e => hpl (e ▸ hql)
            rw [hagree q hql hqp])
        rw [hc]
        simp [hv]
        omega
    · have hs : visit ob R s p = s := by
        unfold visit; rw [if_neg hv]
      rw [hs]
      by_cases hpl : p ∈ l
      · rw [List.dedup_cons_of_mem hpl]
      · rw [List.dedup_cons_of_not_mem hpl, List.countP_cons]
        simp [hv]

theorem pairwise_apart_of_nodup (l : List Nat) (h : NoPartialOverlap l) (hnd : l.Nodup) :
    l.Pairwise Apart := by
  unfold List.Nodup at hnd
  exact hnd.imp_of_mem (fun ha hb hab => (h _ ha _ hb).resolve_left hab)


theorem slot_within (start stop p : Nat) (hlen : start < stop → (stop - start) % 8 = 0)
    (hp : p ∈ slotAddrs start stop) : start ≤ p ∧ p + 8 ≤ stop := by
  obtain ⟨i, rfl, hi⟩ := (mem_slotAddrs start stop p).1 hp
  have := hlen (by omega)
  omega


theorem readWord_writeWord_mod (m : Mem) (p v : Nat) :
    readWord (writeWord m p v) p = v % 2 ^ 64 := by
  have h := readBytes_of_bytes (writeWord m p v) 8 p v (fun i hi => by
    unfold writeWord
    rw [if_pos (by omega)]
    simp)
  unfold readWord
  rw [h]
  norm_num

theorem reclaim_mem (ob : Nat) (st : State) : (reclaim ob st).mem = st.mem := by
  unfold reclaim; split <;> rfl

theorem reclaim_tp_flags (ob : Nat) (st : State) : (reclaim ob st).tp_flags = st.tp_flags := by
  unfold reclaim; split <;> rfl

theorem reclaim_err (ob : Nat) (st : State) : (reclaim ob st).err = st.err := by
  unfold reclaim; split <;> rfl

theorem reclaim_log (ob : Nat) (st : State) :
    (reclaim ob st).log = st.log ++
      (if st.tp_flags st.mem ob &&& Py_TPFLAGS_HAVE_GC ≠ 0
        then [Effect.GC_UnTrack ob, Effect.GC_Del ob] else [Effect.Del ob]) := by
  unfold reclaim; split <;> rfl

theorem scanRanges_frame (ob R : Nat) (ranges : List Slice) (st : State) (c : Nat) :
    (scanRanges ob R ranges st c).2.tp_flags = st.tp_flags ∧
    (scanRanges ob R ranges st c).2.log = st.log := by
  induction ranges generalizing st c with
  | nil => exact ⟨rfl, rfl⟩
  | cons d ranges ih =>
    cases d with
    | nonTuple => simp only [scanRanges, and_self]
    | tuple items =>
      match items with
      | [] => simp only [scanRanges]; split <;> exact ⟨rfl, rfl⟩
      | [_] => simp only [scanRanges]; split <;> exact ⟨rfl, rfl⟩
      | [Item.long a, Item.long b] =>
        simp only [scanRanges]
        refine ⟨(ih _ _).1.trans ?_, (ih _ _).2.trans ?_⟩ <;>
          split <;> rfl
      | [Item.long a, Item.nonLong] => simp only [scanRanges, and_self]
      | [Item.nonLong, _] => simp only [scanRanges, and_self]
      | _ :: _ :: _ :: _ => simp only [scanRanges]; split <;> exact ⟨rfl, rfl⟩

theorem scanRanges_rejected (ob R : Nat) (d : Slice) (tl : List Slice) (st : State) (c : Nat)
    (h : rejected d = true) :
    (scanRanges ob R (d :: tl) st c).1 = none ∧
    (scanRanges ob R (d :: tl) st c).2.mem = st.mem := by
  cases d with
  | nonTuple => simp only [scanRanges, and_self]
  | tuple items =>
    match items, h with
    | [], _ => simp only [scanRanges, true_and]; split <;> rfl
    | [_], _ => simp only [scanRanges, true_and]; split <;> rfl
    | [Item.long a, Item.nonLong], _ => simp only [scanRanges, and_self]
    | [Item.nonLong, _], _ => simp only [scanRanges, and_self]
    | _ :: _ :: _ :: _, _ => simp only [scanRanges, true_and]; split <;> rfl

theorem scanRanges_badlen (ob R : Nat) (items : List Item) (tl : List Slice) (st : State) (c : Nat)
    (h : items.length ≠ 2) :
    scanRanges ob R (Slice.tuple items :: tl) st c =
      (none, if st.err.isSome then st
             else { st with err := some (PyErr.AssertionError items.length) }) := by
  match items, h with
  | [], _ => simp only [scanRanges]
  | [_], _ => simp only [scanRanges]
  | [_, _], h => exact absurd rfl h
  | _ :: _ :: _ :: _, _ => simp only [scanRanges]

theorem become_impl_eligible (ob R : Nat) (ranges : List Slice) (st : State)
    (hob : st.tp_flags st.mem ob &&& Py_TPFLAGS_HEAPTYPE ≠ 0)
    (hto : st.tp_flags st.mem R &&& Py_TPFLAGS_HEAPTYPE ≠ 0) :
    become_impl ob R ranges st =
      match scanRanges ob R ranges st 0 with
      | (none, st1) => (none, st1)
      | (some changed, st1) =>
        (some changed, reclaim ob
          { st1 with
            mem := writeWord st1.mem R ((Py_REFCNT st1.mem R + Py_REFCNT st1.mem ob) % 2 ^ 64)
            log := st1.log ++ [Effect.RefcntAdd R (Py_REFCNT st1.mem ob)] }) := by
  unfold become_impl
  rw [if_neg (by rintro (h | h) <;> contradiction)]

/-- The call on heap-type operands and well-formed ranges, in closed form: the
pass of the loop body over the scanned slots, then the store of line 64, then
the reclamation. -/
theorem become_impl_wf (ob R : Nat) (rs : List (Nat × Nat)) (st : State)
    (hob : st.tp_flags st.mem ob &&& Py_TPFLAGS_HEAPTYPE ≠ 0)
    (hto : st.tp_flags st.mem R &&& Py_TPFLAGS_HEAPTYPE ≠ 0)
    (hwf : ∀ r ∈ rs, r.1 < 2 ^ 64 ∧ r.2 < 2 ^ 64) :
    become_impl ob R (rs.map mkSlice) st =
      (some (List.foldl (visit ob R) (st.mem, 0) (allSlots rs)).2,
       reclaim ob
        { st with
          mem := writeWord (List.foldl (visit ob R) (st.mem, 0) (allSlots rs)).1 R
            ((Py_REFCNT (List.foldl (visit ob R) (st.mem, 0) (allSlots rs)).1 R +
              Py_REFCNT (List.foldl (visit ob R) (st.mem, 0) (allSlots rs)).1 ob) % 2 ^ 64)
          log := st.log ++
            [Effect.RefcntAdd R
              (Py_REFCNT (List.foldl (visit ob R) (st.mem, 0) (allSlots rs)).1 ob)] }) := by
  rw [become_impl_eligible ob R _ st hob hto]
  have h := scanRanges_wf_append ob R rs [] st 0 hwf
  rw [List.append_nil] at h
  rw [h]
  rfl

/-- The call on well-formed ranges followed by a descriptor the loop rejects:
`nullptr`, memory as the pass over the scanned slots left it, and nothing
logged. -/
theorem become_impl_rejected (ob R : Nat) (rs : List (Nat × Nat)) (d : Slice) (tl : List Slice)
    (st : State)
    (hob : st.tp_flags st.mem ob &&& Py_TPFLAGS_HEAPTYPE ≠ 0)
    (hto : st.tp_flags st.mem R &&& Py_TPFLAGS_HEAPTYPE ≠ 0)
    (hwf : ∀ r ∈ rs, r.1 < 2 ^ 64 ∧ r.2 < 2 ^ 64) (hd : rejected d = true) :
    (become_impl ob R (rs.map mkSlice ++ d :: tl) st).1 = none ∧
    (become_impl ob R (rs.map mkSlice ++ d :: tl) st).2.mem
      = (List.foldl (visit ob R) (st.mem, 0) (allSlots rs)).1 ∧
    (become_impl ob R (rs.map mkSlice ++ d :: tl) st).2.log = st.log := by
  rw [become_impl_eligible ob R _ st hob hto, scanRanges_wf_append ob R rs _ st 0 hwf]
  obtain ⟨h1, h2⟩ := scanRanges_rejected ob R d tl
    { st with mem := (List.foldl (visit ob R) (st.mem, 0) (allSlots rs)).1 }
    (List.foldl (visit ob R) (st.mem, 0) (allSlots rs)).2 hd
  have h3 := (scanRanges_frame ob R (d :: tl)
    { st with mem := (List.foldl (visit ob R) (st.mem, 0) (allSlots rs)).1 }
    (List.foldl (visit ob R) (st.mem, 0) (allSlots rs)).2).2
  revert h1 h2 h3
  rcases scanRanges ob R (d :: tl)
    { st with mem := (List.foldl (visit ob R) (st.mem, 0) (allSlots rs)).1 }
    (List.foldl (visit ob R) (st.mem, 0) (allSlots rs)).2 with ⟨_ | c, st1⟩
  · intro _ h2 h3
    exact ⟨rfl, h2, h3⟩
  · intro h1 _ _
    cases h1

/-- What the pass over the scanned slots leaves in a count word that no scanned
slot overlaps partially and that does not hold target's address. -/
theorem scan_keeps_count (ob R : Nat) (l : List Nat) (m : Mem) (o : Nat)
    (h : ∀ p ∈ l, p = o ∨ Apart p o) (hv : Py_REFCNT m o ≠ ob) :
    Py_REFCNT (List.foldl (visit ob R) (m, 0) l).1 o = Py_REFCNT m o :=
  foldl_visit_keeps ob R l (m, 0) o h hv

theorem foldl_visit_stays (ob R : Nat) (hR : R < 2 ^ 64) (l : List Nat) (s : Mem × Nat) (q : Nat)
    (h : ∀ p ∈ l, p = q ∨ Apart p q) (hv : readWord s.1 q = R) :
    readWord (List.foldl (visit ob R) s l).1 q = R := by
  induction l generalizing s with
  | nil => exact hv
  | cons p l ih =>
    rw [List.foldl_cons]
    apply ih _ (fun p' hp' => h p' (List.mem_cons_of_mem _ hp'))
    rcases h p (List.mem_cons_self _ _) with rfl | hd
    · unfold visit
      split
      · exact readWord_writeWord_same _ _ _ hR
      · exact hv
    · exact (visit_apart ob R s p q hd).trans hv

theorem foldl_visit_rewritten_any (ob R : Nat) (hR : R < 2 ^ 64) (l : List Nat)
    (s : Mem × Nat) (h : NoPartialOverlap l) (q : Nat) (hq : q ∈ l)
    (hv : readWord s.1 q = ob) :
    readWord (List.foldl (visit ob R) s l).1 q = R := by
  induction l generalizing s with
  | nil => cases hq
  | cons p l ih =>
    have hl : NoPartialOverlap l := fun a ha b hb =>
      h a (List.mem_cons_of_mem _ ha) b (List.mem_cons_of_mem _ hb)
    rw [List.foldl_cons]
    by_cases hqp : q = p
    · subst hqp
      apply foldl_visit_stays ob R hR l _ q (fun p' hp' =>
        h p' (List.mem_cons_of_mem _ hp') q (List.mem_cons_self _ _))
      unfold visit
      rw [if_pos hv]
      exact readWord_writeWord_same _ _ _ hR
    · have hql : q ∈ l := by
        rcases List.mem_cons.1 hq with e | e
        · exact absurd e hqp
        · exact e
      rcases h p (List.mem_cons_self _ _) q hq with e | e
      · exact absurd e.symm hqp
      · exact ih _ hl hql ((visit_apart ob R s p q e).trans hv)

/-- C3: when target or replacement is not of a heap type, the call returns
`nullptr` with the ineligible-type error, whatever `ranges` holds, and raw
memory (both reference counts with it), the type flags and the effect log are
untouched. -/
theorem C3_ineligible_type (ob to_become : Nat) (ranges : List Slice) (st : State)
    (h : st.tp_flags st.mem ob &&& Py_TPFLAGS_HEAPTYPE = 0 ∨
      st.tp_flags st.mem to_become &&& Py_TPFLAGS_HEAPTYPE = 0) :
    (become_impl ob to_become ranges st).1 = none ∧
    (become_impl ob to_become ranges st).2.err = some PyErr.TypeError ∧
    (become_impl ob to_become ranges st).2.mem = st.mem ∧
    Py_REFCNT (become_impl ob to_become ranges st).2.mem ob = Py_REFCNT st.mem ob ∧
    Py_REFCNT (become_impl ob to_become ranges st).2.mem to_become
      = Py_REFCNT st.mem to_become ∧
    (become_impl ob to_become ranges st).2.tp_flags = st.tp_flags ∧
    (become_impl ob to_become ranges st).2.log = st.log := by
  unfold become_impl
  rw [if_pos h]
  exact ⟨rfl, rfl, rfl, rfl, rfl, rfl, rfl⟩

/-- C3 at a target whose type is not a heap type, with a matching slot in the
first range and a non-tuple second descriptor: `nullptr`, the slot at `0x1000`
still holds `0xA000` and replacement's count is still 5. -/
theorem C3_ineligible_type_witness :
    (staticTargetState.tp_flags staticTargetState.mem 0xA000 &&& Py_TPFLAGS_HEAPTYPE = 0 ∨
      staticTargetState.tp_flags staticTargetState.mem 0xB000 &&& Py_TPFLAGS_HEAPTYPE = 0) ∧
    (become_impl 0xA000 0xB000 [mkSlice (0x1000, 0x1020), Slice.nonTuple]
      staticTargetState).1 = none ∧
    readWord (become_impl 0xA000 0xB000 [mkSlice (0x1000, 0x1020), Slice.nonTuple]
      staticTargetState).2.mem 0x1000 = 0xA000 ∧
    Py_REFCNT (become_impl 0xA000 0xB000 [mkSlice (0x1000, 0x1020), Slice.nonTuple]
      staticTargetState).2.mem 0xB000 = 5 :=
  have h := C3_ineligible_type 0xA000 0xB000 [mkSlice (0x1000, 0x1020), Slice.nonTuple]
    staticTargetState (by decide)
  ⟨by decide, h.1, by rw [h.2.2.1]; decide, by rw [h.2.2.2.2.1]; decide⟩

/-- C10: a well-formed range with `stop ≤ start` visits no slot and raises no
error: the call returns the same value and leaves the same state as the call
with that range removed from the list. -/
theorem C10_empty_range (ob to_become : Nat) (pre post : List Slice) (start stop : Nat)
    (st : State) (hstart : start < 2 ^ 64) (hstop : stop < 2 ^ 64) (hle : stop ≤ start) :
    become_impl ob to_become (pre ++ mkSlice (start, stop) :: post) st
      = become_impl ob to_become (pre ++ post) st := by
  unfold become_impl
  rw [scanRanges_skip ob to_become pre post start stop hstart hstop hle st 0]

/-- C10 at the range `(0x1020, 0x1000)`, whose start is above its stop. -/
theorem C10_empty_range_witness :
    (0x1020 : Nat) < 2 ^ 64 ∧ (0x1000 : Nat) < 2 ^ 64 ∧ (0x1000 : Nat) ≤ 0x1020 ∧
    become_impl 0xA000 0xB000 ([mkSlice (0x1000, 0x1008)] ++ mkSlice (0x1020, 0x1000) :: [])
        (heapState memA)
      = become_impl 0xA000 0xB000 ([mkSlice (0x1000, 0x1008)] ++ []) (heapState memA) :=
  ⟨by decide, by decide, by decide,
    C10_empty_range 0xA000 0xB000 [mkSlice (0x1000, 0x1008)] [] 0x1020 0x1000
      (heapState memA) (by decide) (by decide) (by decide)⟩

/-- C5: the code at ranges `[(-1, 0)]`, a descriptor whose start is a negative
int.  The call does not fail at the descriptor: it returns the count 0 with
`OverflowError` left pending, replacement's reference count has gone from 5 to
8 and target has been untracked and released. -/
theorem C5_unchecked_conversion :
    (become_impl 0xA000 0xB000 [Slice.tuple [Item.long (-1), Item.long 0]]
      (heapState memA)).1 = some 0 ∧
    (become_impl 0xA000 0xB000 [Slice.tuple [Item.long (-1), Item.long 0]]
      (heapState memA)).2.err = some PyErr.OverflowError ∧
    Py_REFCNT (heapState memA).mem 0xB000 = 5 ∧
    Py_REFCNT (become_impl 0xA000 0xB000 [Slice.tuple [Item.long (-1), Item.long 0]]
      (heapState memA)).2.mem 0xB000 = 8 ∧
    (become_impl 0xA000 0xB000 [Slice.tuple [Item.long (-1), Item.long 0]]
      (heapState memA)).2.log
      = [Effect.RefcntAdd 0xB000 3, Effect.GC_UnTrack 0xA000, Effect.GC_Del 0xA000] := by
  decide

/-- C8: the code at ranges `[(0x1000, 0x1008), (-1, 0)]`, whose second
descriptor has a negative start, for a target without cyclic tracking.  The
call ends with `OverflowError` pending, and yet target's count has been added
to replacement's and target has been released. -/
theorem C8_reclaimed_with_error_pending :
    (become_impl 0xA000 0xB000
      [mkSlice (0x1000, 0x1008), Slice.tuple [Item.long (-1), Item.long 0]]
      (plainHeapState memA)).2.err = some PyErr.OverflowError ∧
    (become_impl 0xA000 0xB000
      [mkSlice (0x1000, 0x1008), Slice.tuple [Item.long (-1), Item.long 0]]
      (plainHeapState memA)).1 = some 1 ∧
    (become_impl 0xA000 0xB000
      [mkSlice (0x1000, 0x1008), Slice.tuple [Item.long (-1), Item.long 0]]
      (plainHeapState memA)).2.log
      = [Effect.RefcntAdd 0xB000 3, Effect.Del 0xA000] := by
  decide

/-- C2 (amended): for heap-type operands and well-formed ranges such that no
scanned slot overlaps either reference-count word partially, neither count
word holds target's address, and `rr + rt` fits a `Py_ssize_t`, the call
succeeds and leaves replacement's reference count equal to `rr + rt`, the sum
of the two counts as they were before the call. -/
theorem C2_refcount_conservation (ob to_become : Nat) (rs : List (Nat × Nat)) (st : State)
    (hob : st.tp_flags st.mem ob &&& Py_TPFLAGS_HEAPTYPE ≠ 0)
    (hto : st.tp_flags st.mem to_become &&& Py_TPFLAGS_HEAPTYPE ≠ 0)
    (hwf : ∀ r ∈ rs, r.1 < 2 ^ 64 ∧ r.2 < 2 ^ 64)
    (hslots : ∀ p ∈ allSlots rs, (p = ob ∨ Apart p ob) ∧ (p = to_become ∨ Apart p to_become))
    (hrt : Py_REFCNT st.mem ob ≠ ob)
    (hrr : Py_REFCNT st.mem to_become ≠ ob)
    (hsum : Py_REFCNT st.mem to_become + Py_REFCNT st.mem ob < 2 ^ 63) :
    (∃ changed, (become_impl ob to_become (rs.map mkSlice) st).1 = some changed) ∧
    Py_REFCNT (become_impl ob to_become (rs.map mkSlice) st).2.mem to_become
      = Py_REFCNT st.mem to_become + Py_REFCNT st.mem ob := by
  have h1 := scan_keeps_count ob to_become (allSlots rs) st.mem ob
    (fun p hp => (hslots p hp).1) hrt
  have h2 := scan_keeps_count ob to_become (allSlots rs) st.mem to_become
    (fun p hp => (hslots p hp).2) hrr
  rw [become_impl_wf ob to_become rs st hob hto hwf, reclaim_mem]
  simp only [h1, h2]
  refine ⟨⟨_, rfl⟩, ?_⟩
  show readWord (writeWord _ to_become _) to_become = _
  rw [readWord_writeWord_mod]
  omega

/-- C2 at the end-to-end scenario with two more ranges that cover the headers
of both objects: counts 3 and 5 before the call, 8 after. -/
theorem C2_refcount_conservation_witness :
    (heapState memA).tp_flags (heapState memA).mem 0xA000 &&& Py_TPFLAGS_HEAPTYPE ≠ 0 ∧
    (heapState memA).tp_flags (heapState memA).mem 0xB000 &&& Py_TPFLAGS_HEAPTYPE ≠ 0 ∧
    (∀ r ∈ [((0x1000 : Nat), (0x1020 : Nat)), (0xA000, 0xA010), (0xB000, 0xB010)],
      r.1 < 2 ^ 64 ∧ r.2 < 2 ^ 64) ∧
    (∀ p ∈ allSlots [(0x1000, 0x1020), (0xA000, 0xA010), (0xB000, 0xB010)],
      (p = 0xA000 ∨ Apart p 0xA000) ∧ (p = 0xB000 ∨ Apart p 0xB000)) ∧
    Py_REFCNT (heapState memA).mem 0xA000 ≠ 0xA000 ∧
    Py_REFCNT (heapState memA).mem 0xB000 ≠ 0xA000 ∧
    Py_REFCNT (heapState memA).mem 0xB000 + Py_REFCNT (heapState memA).mem 0xA000 < 2 ^ 63 ∧
    Py_REFCNT (become_impl 0xA000 0xB000
      ([(0x1000, 0x1020), (0xA000, 0xA010), (0xB000, 0xB010)].map mkSlice)
      (heapState memA)).2.mem 0xB000 = 5 + 3 :=
  ⟨by decide, by decide, by decide, by decide, by decide, by decide, by decide,
    ((C2_refcount_conservation 0xA000 0xB000
      [(0x1000, 0x1020), (0xA000, 0xA010), (0xB000, 0xB010)] (heapState memA)
      (by decide) (by decide) (by decide) (by decide) (by decide) (by decide)
      (by decide)).2).trans (by decide)⟩

/-- C2 as stated fails, because line 64 reads both counts from the memory the
scan has left.  With target's count word holding target's own address `0xA000`
and the range `(0xA000, 0xA008)`, replacement's count goes from 5 to `0xB005`,
not `0xA005`.  With replacement's count word holding `0xA000`, target's count 3
and the range `(0xB000, 0xB008)`, it goes to `0xB003`, not `0xA003`.  With the
slot at `0xB004` holding `0xA000` and the range `(0xB004, 0xB00C)`, replacement's
count goes from `0xA00000000005` to `0xB00000000008` with target's count 3. -/
theorem C2_count_read_after_scan :
    (Py_REFCNT (heapState memSelfCount).mem 0xA000 = 0xA000 ∧
      Py_REFCNT (heapState memSelfCount).mem 0xB000 = 5 ∧
      (become_impl 0xA000 0xB000 [mkSlice (0xA000, 0xA008)] (heapState memSelfCount)).1
        = some 1 ∧
      Py_REFCNT (become_impl 0xA000 0xB000 [mkSlice (0xA000, 0xA008)]
        (heapState memSelfCount)).2.mem 0xB000 = 0xB005) ∧
    (Py_REFCNT (heapState memCountIsTarget).mem 0xA000 = 3 ∧
      Py_REFCNT (heapState memCountIsTarget).mem 0xB000 = 0xA000 ∧
      (become_impl 0xA000 0xB000 [mkSlice (0xB000, 0xB008)] (heapState memCountIsTarget)).1
        = some 1 ∧
      Py_REFCNT (become_impl 0xA000 0xB000 [mkSlice (0xB000, 0xB008)]
        (heapState memCountIsTarget)).2.mem 0xB000 = 0xB003) ∧
    (Py_REFCNT (heapState memStraddle).mem 0xA000 = 3 ∧
      Py_REFCNT (heapState memStraddle).mem 0xB000 = 0xA00000000005 ∧
      (become_impl 0xA000 0xB000 [mkSlice (0xB004, 0xB00C)] (heapState memStraddle)).1
        = some 1 ∧
      Py_REFCNT (become_impl 0xA000 0xB000 [mkSlice (0xB004, 0xB00C)]
        (heapState memStraddle)).2.mem 0xB000 = 0xB00000000008) := by
  decide

/-- C9 (amended): for heap-type operands and well-formed ranges none of whose
scanned slots holds target's address, the call returns 0 and target is still
reclaimed; raw memory is unchanged except for replacement's reference-count
word, which receives `rr + rt` modulo `2 ^ 64`: when `rr + rt` fits a
`Py_ssize_t`, replacement's count is `rr + rt` and is unchanged exactly when
target's count was 0. -/
theorem C9_zero_match (ob to_become : Nat) (rs : List (Nat × Nat)) (st : State)
    (hob : st.tp_flags st.mem ob &&& Py_TPFLAGS_HEAPTYPE ≠ 0)
    (hto : st.tp_flags st.mem to_become &&& Py_TPFLAGS_HEAPTYPE ≠ 0)
    (hwf : ∀ r ∈ rs, r.1 < 2 ^ 64 ∧ r.2 < 2 ^ 64)
    (hnone : ∀ p ∈ allSlots rs, readWord st.mem p ≠ ob) :
    (become_impl ob to_become (rs.map mkSlice) st).1 = some 0 ∧
    (become_impl ob to_become (rs.map mkSlice) st).2.mem
      = writeWord st.mem to_become
          ((Py_REFCNT st.mem to_become + Py_REFCNT st.mem ob) % 2 ^ 64) ∧
    (∀ a, a < to_become ∨ to_become + 8 ≤ a →
      (become_impl ob to_become (rs.map mkSlice) st).2.mem a = st.mem a) ∧
    (Py_REFCNT st.mem to_become + Py_REFCNT st.mem ob < 2 ^ 63 →
      Py_REFCNT (become_impl ob to_become (rs.map mkSlice) st).2.mem to_become
        = Py_REFCNT st.mem to_become + Py_REFCNT st.mem ob ∧
      (Py_REFCNT (become_impl ob to_become (rs.map mkSlice) st).2.mem to_become
        = Py_REFCNT st.mem to_become ↔ Py_REFCNT st.mem ob = 0)) ∧
    (become_impl ob to_become (rs.map mkSlice) st).2.log =
      st.log ++ [Effect.RefcntAdd to_become (Py_REFCNT st.mem ob)] ++
        (if st.tp_flags (become_impl ob to_become (rs.map mkSlice) st).2.mem ob
            &&& Py_TPFLAGS_HAVE_GC ≠ 0
          then [Effect.GC_UnTrack ob, Effect.GC_Del ob] else [Effect.Del ob]) := by
  rw [become_impl_wf ob to_become rs st hob hto hwf, reclaim_mem, reclaim_log,
    foldl_visit_clean ob to_become (allSlots rs) (st.mem, 0) hnone]
  have hcount : Py_REFCNT (writeWord st.mem to_become
      ((Py_REFCNT st.mem to_become + Py_REFCNT st.mem ob) % 2 ^ 64)) to_become
      = (Py_REFCNT st.mem to_become + Py_REFCNT st.mem ob) % 2 ^ 64 := by
    show readWord (writeWord _ to_become _) to_become = _
    rw [readWord_writeWord_mod, Nat.mod_mod]
  refine ⟨rfl, rfl, fun a ha => writeWord_outside _ _ _ _ ha, fun hsum => ?_, rfl⟩
  show Py_REFCNT (writeWord st.mem to_become _) to_become = _ ∧
    (Py_REFCNT (writeWord st.mem to_become _) to_become = _ ↔ _)
  rw [hcount]
  constructor <;> omega

/-- C9 at the range `(0x1000, 0x1020)` over slots that hold 0: the call returns
0 and the byte at `0x1000` is as before. -/
theorem C9_zero_match_witness :
    (heapState memCounts).tp_flags (heapState memCounts).mem 0xA000 &&& Py_TPFLAGS_HEAPTYPE ≠ 0 ∧
    (heapState memCounts).tp_flags (heapState memCounts).mem 0xB000 &&& Py_TPFLAGS_HEAPTYPE ≠ 0 ∧
    (∀ r ∈ [((0x1000 : Nat), (0x1020 : Nat))], r.1 < 2 ^ 64 ∧ r.2 < 2 ^ 64) ∧
    (∀ p ∈ allSlots [(0x1000, 0x1020)], readWord (heapState memCounts).mem p ≠ 0xA000) ∧
    (become_impl 0xA000 0xB000 ([(0x1000, 0x1020)].map mkSlice) (heapState memCounts)).1
      = some 0 ∧
    Py_REFCNT (become_impl 0xA000 0xB000 ([(0x1000, 0x1020)].map mkSlice)
      (heapState memCounts)).2.mem 0xB000 = 8 :=
  have h := C9_zero_match 0xA000 0xB000 [(0x1000, 0x1020)] (heapState memCounts)
    (by decide) (by decide) (by decide) (by decide)
  ⟨by decide, by decide, by decide, by decide, h.1, (h.2.2.2.1 (by decide)).1.trans (by decide)⟩

/-- C9 as stated fails: with target count 3, replacement count 5 and one
well-formed range holding no slot equal to target's address, the call returns 0
and replacement's count is 8 afterwards, not 5; and when the range is
`(0xB000, 0xB008)`, the scanned slot at `0xB000` holds 5 before the call and 8
after it. -/
theorem C9_refcount_changes :
    ((heapState memCounts).tp_flags (heapState memCounts).mem 0xA000
        &&& Py_TPFLAGS_HEAPTYPE ≠ 0 ∧
      (heapState memCounts).tp_flags (heapState memCounts).mem 0xB000
        &&& Py_TPFLAGS_HEAPTYPE ≠ 0 ∧
      (∀ p ∈ allSlots [(0x1000, 0x1020)], readWord (heapState memCounts).mem p ≠ 0xA000) ∧
      (become_impl 0xA000 0xB000 [mkSlice (0x1000, 0x1020)] (heapState memCounts)).1
        = some 0 ∧
      Py_REFCNT (heapState memCounts).mem 0xB000 = 5 ∧
      Py_REFCNT (become_impl 0xA000 0xB000 [mkSlice (0x1000, 0x1020)]
        (heapState memCounts)).2.mem 0xB000 = 8) ∧
    ((∀ p ∈ allSlots [(0xB000, 0xB008)], readWord (heapState memCounts).mem p ≠ 0xA000) ∧
      0xB000 ∈ allSlots [(0xB000, 0xB008)] ∧
      (become_impl 0xA000 0xB000 [mkSlice (0xB000, 0xB008)] (heapState memCounts)).1
        = some 0 ∧
      readWord (heapState memCounts).mem 0xB000 = 5 ∧
      readWord (become_impl 0xA000 0xB000 [mkSlice (0xB000, 0xB008)]
        (heapState memCounts)).2.mem 0xB000 = 8) := by
  decide

/-- C1 (amended): for heap-type operands and well-formed ranges no two of whose
scanned slots overlap partially, no slot being scanned twice unless target and
replacement differ, and of whose distinct scanned slots exactly `k` hold
target's address, the call returns `k` without raising an error, and afterwards
each of those `k` slots that shares no byte with replacement's reference-count
word holds replacement's address. -/
theorem C1_count_and_rewrite (ob to_become : Nat) (rs : List (Nat × Nat)) (st : State) (k : Nat)
    (hob : st.tp_flags st.mem ob &&& Py_TPFLAGS_HEAPTYPE ≠ 0)
    (hto : st.tp_flags st.mem to_become &&& Py_TPFLAGS_HEAPTYPE ≠ 0)
    (hptr : to_become < 2 ^ 64)
    (hwf : ∀ r ∈ rs, r.1 < 2 ^ 64 ∧ r.2 < 2 ^ 64)
    (hnpo : NoPartialOverlap (allSlots rs))
    (hdup : ob ≠ to_become ∨ (allSlots rs).Nodup)
    (hk : (allSlots rs).dedup.countP (fun p => decide (readWord st.mem p = ob)) = k) :
    (become_impl ob to_become (rs.map mkSlice) st).1 = some k ∧
    (become_impl ob to_become (rs.map mkSlice) st).2.err = st.err ∧
    ∀ p ∈ allSlots rs, readWord st.mem p = ob → Apart p to_become →
      readWord (become_impl ob to_become (rs.map mkSlice) st).2.mem p = to_become := by
  rw [become_impl_wf ob to_become rs st hob hto hwf, reclaim_mem, reclaim_err]
  refine ⟨?_, rfl, fun p hp hv hap => ?_⟩
  · rcases hdup with hne | hnd
    · rw [foldl_visit_count_dedup ob to_become hptr hne (allSlots rs) (st.mem, 0) hnpo,
        Nat.zero_add, hk]
    · rw [hnd.dedup] at hk
      rw [foldl_visit_count ob to_become (allSlots rs) (st.mem, 0)
        (pairwise_apart_of_nodup (allSlots rs) hnpo hnd), Nat.zero_add, hk]
  · show readWord (writeWord _ to_become _) p = _
    rw [readWord_writeWord_disj _ _ _ _ hap]
    exact foldl_visit_rewritten_any ob to_become hptr (allSlots rs) (st.mem, 0) hnpo p hp hv

/-- C1 at the end-to-end scenario: target `0xA000`, replacement `0xB000`, range
`(0x1000, 0x1020)` whose slots at `0x1000` and `0x1018` hold `0xA000`; the call
returns 2 and both slots hold `0xB000`. -/
theorem C1_count_and_rewrite_witness :
    (heapState memA).tp_flags (heapState memA).mem 0xA000 &&& Py_TPFLAGS_HEAPTYPE ≠ 0 ∧
    (heapState memA).tp_flags (heapState memA).mem 0xB000 &&& Py_TPFLAGS_HEAPTYPE ≠ 0 ∧
    (0xB000 : Nat) < 2 ^ 64 ∧
    (∀ r ∈ [((0x1000 : Nat), (0x1020 : Nat))], r.1 < 2 ^ 64 ∧ r.2 < 2 ^ 64) ∧
    NoPartialOverlap (allSlots [(0x1000, 0x1020)]) ∧
    ((0xA000 : Nat) ≠ 0xB000 ∨ (allSlots [(0x1000, 0x1020)]).Nodup) ∧
    (allSlots [(0x1000, 0x1020)]).dedup.countP
      (fun p => decide (readWord (heapState memA).mem p = 0xA000)) = 2 ∧
    (become_impl 0xA000 0xB000 ([(0x1000, 0x1020)].map mkSlice) (heapState memA)).1
      = some 2 ∧
    readWord (become_impl 0xA000 0xB000 ([(0x1000, 0x1020)].map mkSlice)
      (heapState memA)).2.mem 0x1000 = 0xB000 ∧
    readWord (become_impl 0xA000 0xB000 ([(0x1000, 0x1020)].map mkSlice)
      (heapState memA)).2.mem 0x1018 = 0xB000 :=
  have h := C1_count_and_rewrite 0xA000 0xB000 [(0x1000, 0x1020)] (heapState memA) 2
    (by decide) (by decide) (by decide) (by decide) (by decide) (by decide) (by decide)
  ⟨by decide, by decide, by decide, by decide, by decide, by decide, by decide, h.1,
    h.2.2 0x1000 (by decide) (by decide) (by decide),
    h.2.2 0x1018 (by decide) (by decide) (by decide)⟩

/-- C1 as stated fails in two ways.  Target `0x100000001000`, replacement
`0xB000` and the well-formed ranges `(0x2000, 0x2008)`, `(0x2004, 0x200C)` scan
the two slots `0x2000` and `0x2004`, both of which hold target's address before
the call; the call returns 1, and afterwards the slot at `0x2004` does not hold
replacement's address.  With replacement's count word holding target's address
`0xA000`, target's count 3 and the range `(0xB000, 0xB008)`, the one scanned
slot holds target's address, the call returns 1, and afterwards that slot holds
`0xB003`, not `0xB000`. -/
theorem C1_overlapping_slots :
    ((heapState memOverlap).tp_flags (heapState memOverlap).mem 0x100000001000
        &&& Py_TPFLAGS_HEAPTYPE ≠ 0 ∧
      (heapState memOverlap).tp_flags (heapState memOverlap).mem 0xB000
        &&& Py_TPFLAGS_HEAPTYPE ≠ 0 ∧
      (∀ r ∈ [((0x2000 : Nat), (0x2008 : Nat)), (0x2004, 0x200C)], r.1 ≤ r.2 ∧ r.2 < 2 ^ 64) ∧
      allSlots [(0x2000, 0x2008), (0x2004, 0x200C)] = [0x2000, 0x2004] ∧
      readWord (heapState memOverlap).mem 0x2000 = 0x100000001000 ∧
      readWord (heapState memOverlap).mem 0x2004 = 0x100000001000 ∧
      (become_impl 0x100000001000 0xB000 ([(0x2000, 0x2008), (0x2004, 0x200C)].map mkSlice)
        (heapState memOverlap)).1 = some 1 ∧
      readWord (become_impl 0x100000001000 0xB000
        ([(0x2000, 0x2008), (0x2004, 0x200C)].map mkSlice)
        (heapState memOverlap)).2.mem 0x2004 = 0x100000000000) ∧
    (allSlots [(0xB000, 0xB008)] = [0xB000] ∧
      readWord (heapState memCountIsTarget).mem 0xB000 = 0xA000 ∧
      (become_impl 0xA000 0xB000 ([(0xB000, 0xB008)].map mkSlice)
        (heapState memCountIsTarget)).1 = some 1 ∧
      readWord (become_impl 0xA000 0xB000 ([(0xB000, 0xB008)].map mkSlice)
        (heapState memCountIsTarget)).2.mem 0xB000 = 0xB003) := by
  decide

/-- C7 (amended): for heap-type operands with target different from replacement
and well-formed ranges such that no two scanned slots overlap partially and
none overlaps replacement's reference-count word partially, the call succeeds
and afterwards no scanned slot other than replacement's own count word holds
target's address. -/
theorem C7_no_slot_holds_target (ob to_become : Nat) (rs : List (Nat × Nat)) (st : State)
    (hob : st.tp_flags st.mem ob &&& Py_TPFLAGS_HEAPTYPE ≠ 0)
    (hto : st.tp_flags st.mem to_become &&& Py_TPFLAGS_HEAPTYPE ≠ 0)
    (hptr : to_become < 2 ^ 64)
    (hne : ob ≠ to_become)
    (hwf : ∀ r ∈ rs, r.1 < 2 ^ 64 ∧ r.2 < 2 ^ 64)
    (hnpo : NoPartialOverlap (to_become :: allSlots rs)) :
    (∃ changed, (become_impl ob to_become (rs.map mkSlice) st).1 = some changed) ∧
    ∀ p ∈ allSlots rs, p ≠ to_become →
      readWord (become_impl ob to_become (rs.map mkSlice) st).2.mem p ≠ ob := by
  have hl : NoPartialOverlap (allSlots rs) := fun a ha b hb =>
    hnpo a (List.mem_cons_of_mem _ ha) b (List.mem_cons_of_mem _ hb)
  rw [become_impl_wf ob to_become rs st hob hto hwf, reclaim_mem]
  refine ⟨⟨_, rfl⟩, fun p hp hpne => ?_⟩
  have hap : Apart p to_become := by
    rcases hnpo p (List.mem_cons_of_mem _ hp) to_become (List.mem_cons_self _ _) with e | e
    · exact absurd e hpne
    · exact e
  show readWord (writeWord _ to_become _) p ≠ ob
  rw [readWord_writeWord_disj _ _ _ _ hap]
  exact foldl_visit_none_left ob to_become hptr hne (allSlots rs) (st.mem, 0) hl p hp

/-- C7 at two aligned ranges that scan the slots `0x1010` and `0x1018` twice,
and a third over replacement's header: the slot at `0x1018` does not hold
`0xA000` after the call. -/
theorem C7_no_slot_holds_target_witness :
    (heapState memA).tp_flags (heapState memA).mem 0xA000 &&& Py_TPFLAGS_HEAPTYPE ≠ 0 ∧
    (heapState memA).tp_flags (heapState memA).mem 0xB000 &&& Py_TPFLAGS_HEAPTYPE ≠ 0 ∧
    (0xB000 : Nat) < 2 ^ 64 ∧ (0xA000 : Nat) ≠ 0xB000 ∧
    (∀ r ∈ [((0x1000 : Nat), (0x1020 : Nat)), (0x1010, 0x1020), (0xB000, 0xB010)],
      r.1 < 2 ^ 64 ∧ r.2 < 2 ^ 64) ∧
    NoPartialOverlap (0xB000 :: allSlots [(0x1000, 0x1020), (0x1010, 0x1020), (0xB000, 0xB010)]) ∧
    readWord (become_impl 0xA000 0xB000
      ([(0x1000, 0x1020), (0x1010, 0x1020), (0xB000, 0xB010)].map mkSlice)
      (heapState memA)).2.mem 0x1018 ≠ 0xA000 :=
  ⟨by decide, by decide, by decide, by decide, by decide, by decide,
    (C7_no_slot_holds_target 0xA000 0xB000 [(0x1000, 0x1020), (0x1010, 0x1020), (0xB000, 0xB010)]
      (heapState memA) (by decide) (by decide) (by decide) (by decide) (by decide)
      (by decide)).2 0x1018 (by decide) (by decide)⟩

/-- C7 as stated fails in three ways.  With the same object as target and
replacement (`0xA000`), the call over `(0x1000, 0x1020)` succeeds and the slot
at `0x1000` still holds target's address.  With target `0x50000000A000`,
replacement `0x5000` and the ranges `(0x2000, 0x2008)`, `(0x2004, 0x200C)`, the
slot at `0x2000` does not hold target's address before the call and holds it
after the call, which succeeds.  With replacement's count `0x9FFD`, target's
count 3 and the range `(0xB000, 0xB008)`, the scan rewrites nothing and line 64
stores `0xA000`, target's address, in the scanned slot at `0xB000`. -/
theorem C7_target_left_behind :
    ((heapState memA).tp_flags (heapState memA).mem 0xA000 &&& Py_TPFLAGS_HEAPTYPE ≠ 0 ∧
      0x1000 ∈ allSlots [(0x1000, 0x1020)] ∧
      (become_impl 0xA000 0xA000 [mkSlice (0x1000, 0x1020)] (heapState memA)).1 = some 2 ∧
      readWord (become_impl 0xA000 0xA000 [mkSlice (0x1000, 0x1020)]
        (heapState memA)).2.mem 0x1000 = 0xA000) ∧
    ((heapState memShift).tp_flags (heapState memShift).mem 0x50000000A000
        &&& Py_TPFLAGS_HEAPTYPE ≠ 0 ∧
      (heapState memShift).tp_flags (heapState memShift).mem 0x5000
        &&& Py_TPFLAGS_HEAPTYPE ≠ 0 ∧
      0x2000 ∈ allSlots [(0x2000, 0x2008), (0x2004, 0x200C)] ∧
      readWord (heapState memShift).mem 0x2000 = 0xA0000000A000 ∧
      (become_impl 0x50000000A000 0x5000 [mkSlice (0x2000, 0x2008), mkSlice (0x2004, 0x200C)]
        (heapState memShift)).1 = some 1 ∧
      readWord (become_impl 0x50000000A000 0x5000
        [mkSlice (0x2000, 0x2008), mkSlice (0x2004, 0x200C)]
        (heapState memShift)).2.mem 0x2000 = 0x50000000A000) ∧
    (0xB000 ∈ allSlots [(0xB000, 0xB008)] ∧
      Py_REFCNT (heapState memCountBelow).mem 0xB000 = 0x9FFD ∧
      Py_REFCNT (heapState memCountBelow).mem 0xA000 = 3 ∧
      (become_impl 0xA000 0xB000 [mkSlice (0xB000, 0xB008)] (heapState memCountBelow)).1
        = some 0 ∧
      readWord (become_impl 0xA000 0xB000 [mkSlice (0xB000, 0xB008)]
        (heapState memCountBelow)).2.mem 0xB000 = 0xA000) := by
  decide

theorem become_impl_badlen (ob R : Nat) (rs : List (Nat × Nat)) (items : List Item)
    (post : List Slice) (st : State)
    (hob : st.tp_flags st.mem ob &&& Py_TPFLAGS_HEAPTYPE ≠ 0)
    (hto : st.tp_flags st.mem R &&& Py_TPFLAGS_HEAPTYPE ≠ 0)
    (herr : st.err = none)
    (hwf : ∀ r ∈ rs, r.1 < 2 ^ 64 ∧ r.2 < 2 ^ 64)
    (hlen : items.length ≠ 2) :
    become_impl ob R (rs.map mkSlice ++ Slice.tuple items :: post) st =
      (none, { st with mem := scanned ob R rs st.mem,
                       err := some (PyErr.AssertionError items.length) }) := by
  rw [become_impl_eligible ob R _ st hob hto, scanRanges_wf_append ob R rs _ st 0 hwf,
    scanRanges_badlen ob R items post _ _ hlen]
  simp [herr, scanned]

/-- C4 (amended): for heap-type operands, no error pending at entry, and a list
whose first malformed descriptor is a tuple of length other than 2 preceded by
well-formed ranges, the call returns `nullptr` with the length error and
nothing is added to a count or reclaimed.  Raw memory is what visiting the
slots of the preceding ranges in order produces, whatever follows the malformed
descriptor: bytes in none of those slots are unchanged, and when no two of
those slots overlap partially each of them that held target's address holds
replacement's, every byte outside them is unchanged, and replacement's count is
unchanged if its count word shares no byte with them. -/
theorem C4_malformed_length (ob to_become : Nat) (rs : List (Nat × Nat)) (items : List Item)
    (post : List Slice) (st : State)
    (hob : st.tp_flags st.mem ob &&& Py_TPFLAGS_HEAPTYPE ≠ 0)
    (hto : st.tp_flags st.mem to_become &&& Py_TPFLAGS_HEAPTYPE ≠ 0)
    (herr : st.err = none)
    (hwf : ∀ r ∈ rs, r.1 < 2 ^ 64 ∧ r.2 < 2 ^ 64)
    (hlen : items.length ≠ 2) :
    (become_impl ob to_become (rs.map mkSlice ++ Slice.tuple items :: post) st).1 = none ∧
    (become_impl ob to_become (rs.map mkSlice ++ Slice.tuple items :: post) st).2.err
      = some (PyErr.AssertionError items.length) ∧
    (become_impl ob to_become (rs.map mkSlice ++ Slice.tuple items :: post) st).2.log
      = st.log ∧
    (become_impl ob to_become (rs.map mkSlice ++ Slice.tuple items :: post) st).2.mem
      = scanned ob to_become rs st.mem ∧
    (∀ a, (∀ p ∈ allSlots rs, a < p ∨ p + 8 ≤ a) →
      (become_impl ob to_become (rs.map mkSlice ++ Slice.tuple items :: post) st).2.mem a
        = st.mem a) ∧
    (NoPartialOverlap (allSlots rs) → to_become < 2 ^ 64 →
      (∀ p ∈ allSlots rs, readWord st.mem p = ob →
        readWord (become_impl ob to_become
          (rs.map mkSlice ++ Slice.tuple items :: post) st).2.mem p = to_become) ∧
      (∀ a, (∀ p ∈ allSlots rs, readWord st.mem p = ob → a < p ∨ p + 8 ≤ a) →
        (become_impl ob to_become (rs.map mkSlice ++ Slice.tuple items :: post) st).2.mem a
          = st.mem a) ∧
      ((∀ p ∈ allSlots rs, readWord st.mem p = ob → Apart p to_become) →
        Py_REFCNT (become_impl ob to_become
          (rs.map mkSlice ++ Slice.tuple items :: post) st).2.mem to_become
          = Py_REFCNT st.mem to_become)) := by
  rw [become_impl_badlen ob to_become rs items post st hob hto herr hwf hlen]
  refine ⟨rfl, rfl, rfl, rfl, fun a ha => ?_, fun hnpo hptr => ⟨fun p hp hv => ?_, fun a ha => ?_,
    fun hap => ?_⟩⟩
  · exact foldl_visit_outside ob to_become (allSlots rs) (st.mem, 0) a ha
  · exact foldl_visit_rewritten_any ob to_become hptr (allSlots rs) (st.mem, 0) hnpo p hp hv
  · exact foldl_visit_only_matched ob to_become (allSlots rs) (st.mem, 0) hnpo a ha
  · exact readWord_congr _ _ to_become (fun a h1 h2 =>
      foldl_visit_only_matched ob to_become (allSlots rs) (st.mem, 0) hnpo a (fun p hp hv => by
        have := hap p hp hv
        unfold Apart at this
        omega))

/-- C4 at the list `[(0x1000, 0x1008), (0x1018,), (0x1018, 0x1020)]`: the call
fails with the length error for length 1, the slot at `0x1000` has been
rewritten, the slot at `0x1018` has not, and replacement's count is still 5. -/
theorem C4_malformed_length_witness :
    (heapState memA).tp_flags (heapState memA).mem 0xA000 &&& Py_TPFLAGS_HEAPTYPE ≠ 0 ∧
    (heapState memA).tp_flags (heapState memA).mem 0xB000 &&& Py_TPFLAGS_HEAPTYPE ≠ 0 ∧
    (heapState memA).err = none ∧
    (∀ r ∈ [((0x1000 : Nat), (0x1008 : Nat))], r.1 < 2 ^ 64 ∧ r.2 < 2 ^ 64) ∧
    [Item.long 0x1018].length ≠ 2 ∧
    (become_impl 0xA000 0xB000
      ([(0x1000, 0x1008)].map mkSlice ++ Slice.tuple [Item.long 0x1018] :: [mkSlice (0x1018, 0x1020)])
      (heapState memA)).2.err = some (PyErr.AssertionError 1) ∧
    readWord (become_impl 0xA000 0xB000
      ([(0x1000, 0x1008)].map mkSlice ++ Slice.tuple [Item.long 0x1018] :: [mkSlice (0x1018, 0x1020)])
      (heapState memA)).2.mem 0x1000 = 0xB000 ∧
    (become_impl 0xA000 0xB000
      ([(0x1000, 0x1008)].map mkSlice ++ Slice.tuple [Item.long 0x1018] :: [mkSlice (0x1018, 0x1020)])
      (heapState memA)).2.mem 0x1019 = 0xA0 ∧
    Py_REFCNT (become_impl 0xA000 0xB000
      ([(0x1000, 0x1008)].map mkSlice ++ Slice.tuple [Item.long 0x1018] :: [mkSlice (0x1018, 0x1020)])
      (heapState memA)).2.mem 0xB000 = 5 :=
  have h := C4_malformed_length 0xA000 0xB000 [(0x1000, 0x1008)] [Item.long 0x1018]
    [mkSlice (0x1018, 0x1020)] (heapState memA)
    (by decide) (by decide) rfl (by decide) (by decide)
  have h6 := h.2.2.2.2.2 (by decide) (by decide)
  ⟨by decide, by decide, rfl, by decide, by decide, h.2.1,
    h6.1 0x1000 (by decide) (by decide),
    (h.2.2.2.2.1 0x1019 (by decide)).trans (by decide),
    (h6.2.2 (by decide)).trans (by decide)⟩

/-- C4 as stated fails: with replacement's count word holding target's address
`0xA000` and the list `[(0xB000, 0xB008), (1,)]`, the call fails with the length
error, and replacement's reference count has gone from `0xA000` to `0xB000`. -/
theorem C4_count_rewritten_by_scan :
    (heapState memCountIsTarget).tp_flags (heapState memCountIsTarget).mem 0xA000
      &&& Py_TPFLAGS_HEAPTYPE ≠ 0 ∧
    (heapState memCountIsTarget).tp_flags (heapState memCountIsTarget).mem 0xB000
      &&& Py_TPFLAGS_HEAPTYPE ≠ 0 ∧
    (become_impl 0xA000 0xB000 [mkSlice (0xB000, 0xB008), Slice.tuple [Item.long 1]]
      (heapState memCountIsTarget)).1 = none ∧
    (become_impl 0xA000 0xB000 [mkSlice (0xB000, 0xB008), Slice.tuple [Item.long 1]]
      (heapState memCountIsTarget)).2.err = some (PyErr.AssertionError 1) ∧
    Py_REFCNT (heapState memCountIsTarget).mem 0xB000 = 0xA000 ∧
    Py_REFCNT (become_impl 0xA000 0xB000 [mkSlice (0xB000, 0xB008), Slice.tuple [Item.long 1]]
      (heapState memCountIsTarget)).2.mem 0xB000 = 0xB000 := by
  decide

theorem become_impl_cases (ob R : Nat) (rs : List (Nat × Nat)) (rest : List Slice)
    (st : State) (hwf : ∀ r ∈ rs, r.1 < 2 ^ 64 ∧ r.2 < 2 ^ 64)
    (hrest : rest = [] ∨ ∃ d tl, rest = d :: tl ∧ rejected d = true) :
    ((become_impl ob R (rs.map mkSlice ++ rest) st).1 = none ∧
      ((become_impl ob R (rs.map mkSlice ++ rest) st).2.mem = st.mem ∨
        (become_impl ob R (rs.map mkSlice ++ rest) st).2.mem = scanned ob R rs st.mem) ∧
      (become_impl ob R (rs.map mkSlice ++ rest) st).2.log = st.log) ∨
    ((∃ c, (become_impl ob R (rs.map mkSlice ++ rest) st).1 = some c) ∧
      ∃ v, (become_impl ob R (rs.map mkSlice ++ rest) st).2.mem
        = writeWord (scanned ob R rs st.mem) R v) := by
  by_cases hel : st.tp_flags st.mem ob &&& Py_TPFLAGS_HEAPTYPE = 0 ∨
      st.tp_flags st.mem R &&& Py_TPFLAGS_HEAPTYPE = 0
  · left
    unfold become_impl
    rw [if_pos hel]
    exact ⟨rfl, Or.inl rfl, rfl⟩
  · have hob : st.tp_flags st.mem ob &&& Py_TPFLAGS_HEAPTYPE ≠ 0 := fun h => hel (Or.inl h)
    have hto : st.tp_flags st.mem R &&& Py_TPFLAGS_HEAPTYPE ≠ 0 := fun h => hel (Or.inr h)
    rcases hrest with rfl | ⟨d, tl, rfl, hd⟩
    · right
      rw [List.append_nil, become_impl_wf ob R rs st hob hto hwf, reclaim_mem]
      exact ⟨⟨_, rfl⟩, _, rfl⟩
    · left
      obtain ⟨h1, h2, h3⟩ := become_impl_rejected ob R rs d tl st hob hto hwf hd
      exact ⟨h1, Or.inr h2, h3⟩

theorem become_impl_tp_flags (ob R : Nat) (ranges : List Slice) (st : State) :
    (become_impl ob R ranges st).2.tp_flags = st.tp_flags := by
  unfold become_impl
  split
  · rfl
  · have h := (scanRanges_frame ob R ranges st 0).1
    revert h
    rcases scanRanges ob R ranges st 0 with ⟨_ | c, st1⟩
    · exact fun h => h
    · intro h
      simp only
      rw [reclaim_tp_flags]
      exact h

/-- C6 (amended): for a call whose descriptors are well-formed ranges up to
the end of the list or up to a descriptor the loop rejects.
Every byte that lies in none of the scanned 8-byte slots and not in
replacement's reference-count word keeps its value, and so does every byte
outside all supplied intervals and outside that word when each non-empty range
has a length that is a multiple of 8.  When no two scanned slots overlap
partially, every byte outside that word and outside the scanned slots that held
target's address keeps its value, and every scanned slot that held another
value and shares no byte with that word keeps it.  When the call returns
`nullptr`, replacement's count word is not excepted and nothing is logged.  The
type-flag accessor is unchanged.  Memory is as the function's own stores leave
it: what the release of target does to target's storage is not described. -/
theorem C6_frame (ob to_become : Nat) (rs : List (Nat × Nat)) (rest : List Slice) (st : State)
    (hwf : ∀ r ∈ rs, r.1 < 2 ^ 64 ∧ r.2 < 2 ^ 64)
    (hrest : rest = [] ∨ ∃ d tl, rest = d :: tl ∧ rejected d = true) :
    (∀ a, (∀ p ∈ allSlots rs, a < p ∨ p + 8 ≤ a) → (a < to_become ∨ to_become + 8 ≤ a) →
      (become_impl ob to_become (rs.map mkSlice ++ rest) st).2.mem a = st.mem a) ∧
    ((∀ r ∈ rs, r.1 < r.2 → (r.2 - r.1) % 8 = 0) →
      ∀ a, (∀ r ∈ rs, a < r.1 ∨ r.2 ≤ a) → (a < to_become ∨ to_become + 8 ≤ a) →
        (become_impl ob to_become (rs.map mkSlice ++ rest) st).2.mem a = st.mem a) ∧
    (NoPartialOverlap (allSlots rs) →
      (∀ a, (∀ p ∈ allSlots rs, readWord st.mem p = ob → a < p ∨ p + 8 ≤ a) →
        (a < to_become ∨ to_become + 8 ≤ a) →
        (become_impl ob to_become (rs.map mkSlice ++ rest) st).2.mem a = st.mem a) ∧
      (∀ q ∈ allSlots rs, readWord st.mem q ≠ ob → Apart q to_become →
        readWord (become_impl ob to_become (rs.map mkSlice ++ rest) st).2.mem q
          = readWord st.mem q)) ∧
    ((become_impl ob to_become (rs.map mkSlice ++ rest) st).1 = none →
      (∀ a, (∀ p ∈ allSlots rs, a < p ∨ p + 8 ≤ a) →
        (become_impl ob to_become (rs.map mkSlice ++ rest) st).2.mem a = st.mem a) ∧
      (NoPartialOverlap (allSlots rs) →
        ∀ a, (∀ p ∈ allSlots rs, readWord st.mem p = ob → a < p ∨ p + 8 ≤ a) →
          (become_impl ob to_become (rs.map mkSlice ++ rest) st).2.mem a = st.mem a) ∧
      (become_impl ob to_become (rs.map mkSlice ++ rest) st).2.log = st.log) ∧
    (become_impl ob to_become (rs.map mkSlice ++ rest) st).2.tp_flags = st.tp_flags := by
  have hc := become_impl_cases ob to_become rs rest st hwf hrest
  have hbytes : ∀ a, (∀ p ∈ allSlots rs, a < p ∨ p + 8 ≤ a) →
      (a < to_become ∨ to_become + 8 ≤ a) →
      (become_impl ob to_become (rs.map mkSlice ++ rest) st).2.mem a = st.mem a := by
    intro a ha hR
    rcases hc with ⟨_, h | h, _⟩ | ⟨_, v, h⟩
    · rw [h]
    · rw [h]
      exact foldl_visit_outside ob to_become (allSlots rs) (st.mem, 0) a ha
    · rw [h, writeWord_outside _ _ _ _ hR]
      exact foldl_visit_outside ob to_become (allSlots rs) (st.mem, 0) a ha
  refine ⟨hbytes, ?_, ?_, ?_, become_impl_tp_flags ob to_become _ st⟩
  · intro hlen a ha hR
    apply hbytes a _ hR
    intro p hp
    obtain ⟨r, hr, hpr⟩ := (mem_allSlots rs p).1 hp
    have h1 := slot_within r.1 r.2 p (hlen r hr) hpr
    have h2 := ha r hr
    omega
  · intro hnpo
    constructor
    · intro a ha hR
      rcases hc with ⟨_, h | h, _⟩ | ⟨_, v, h⟩
      · rw [h]
      · rw [h]
        exact foldl_visit_only_matched ob to_become (allSlots rs) (st.mem, 0) hnpo a ha
      · rw [h, writeWord_outside _ _ _ _ hR]
        exact foldl_visit_only_matched ob to_become (allSlots rs) (st.mem, 0) hnpo a ha
    · intro q hq hv hap
      have hk := foldl_visit_keeps ob to_become (allSlots rs) (st.mem, 0) q
        (fun p hp => hnpo p hp q hq) hv
      rcases hc with ⟨_, h | h, _⟩ | ⟨_, v, h⟩
      · rw [h]
      · rw [h]
        exact hk
      · rw [h, readWord_writeWord_disj _ _ _ _ hap]
        exact hk
  · intro hnone
    rcases hc with ⟨_, h, hlog⟩ | ⟨⟨c, hs⟩, _⟩
    · refine ⟨fun a ha => ?_, fun hnpo a ha => ?_, hlog⟩
      · rcases h with h | h
        · rw [h]
        · rw [h]
          exact foldl_visit_outside ob to_become (allSlots rs) (st.mem, 0) a ha
      · rcases h with h | h
        · rw [h]
        · rw [h]
          exact foldl_visit_only_matched ob to_become (allSlots rs) (st.mem, 0) hnpo a ha
    · rw [hs] at hnone
      cases hnone

/-- C6 at the list `[(0x1000, 0x1010), (0x1018,)]`: the byte at `0x1019`, outside
the one scanned interval, keeps its value, and the slot at `0x1008`, which does
not hold target's address, keeps its value. -/
theorem C6_frame_witness :
    (∀ r ∈ [((0x1000 : Nat), (0x1010 : Nat))], r.1 < 2 ^ 64 ∧ r.2 < 2 ^ 64) ∧
    ([Slice.tuple [Item.long 0x1018]] = [] ∨
      ∃ d tl, [Slice.tuple [Item.long 0x1018]] = d :: tl ∧ rejected d = true) ∧
    (∀ r ∈ [((0x1000 : Nat), (0x1010 : Nat))], (0x1019 : Nat) < r.1 ∨ r.2 ≤ 0x1019) ∧
    (become_impl 0xA000 0xB000
      ([(0x1000, 0x1010)].map mkSlice ++ [Slice.tuple [Item.long 0x1018]])
      (heapState memA)).2.mem 0x1019 = (heapState memA).mem 0x1019 ∧
    readWord (become_impl 0xA000 0xB000
      ([(0x1000, 0x1010)].map mkSlice ++ [Slice.tuple [Item.long 0x1018]])
      (heapState memA)).2.mem 0x1008 = readWord (heapState memA).mem 0x1008 :=
  have h := C6_frame 0xA000 0xB000 [(0x1000, 0x1010)] [Slice.tuple [Item.long 0x1018]]
    (heapState memA) (by decide) (Or.inr ⟨_, _, rfl, rfl⟩)
  ⟨by decide, Or.inr ⟨_, _, rfl, rfl⟩, by decide,
    h.2.1 (by decide) 0x1019 (by decide) (by decide),
    (h.2.2.1 (by decide)).2 0x1008 (by decide) (by decide) (by decide)⟩

/-- C6 as stated fails in two ways.  The range `(0x1000, 0x1001)` makes the
loop visit the 8-byte slot at `0x1000`, which holds target's address: the byte
at `0x1001`, outside the interval, goes from `0xA0` to `0xB0`.  With target
`0x50000000A000`, replacement `0x5000` and the ranges `(0x2000, 0x2008)`,
`(0x2004, 0x200C)`, the scanned slot at `0x2000` holds `0xA0000000A000`, which
is not target's address, and holds another value after the call. -/
theorem C6_changes_elsewhere :
    ((∀ r ∈ [((0x1000 : Nat), (0x1001 : Nat))], (0x1001 : Nat) < r.1 ∨ r.2 ≤ 0x1001) ∧
      (heapState memA).mem 0x1001 = 0xA0 ∧
      (become_impl 0xA000 0xB000 [mkSlice (0x1000, 0x1001)] (heapState memA)).2.mem 0x1001
        = 0xB0) ∧
    (0x2000 ∈ allSlots [(0x2000, 0x2008), (0x2004, 0x200C)] ∧
      readWord (heapState memShift).mem 0x2000 = 0xA0000000A000 ∧
      readWord (become_impl 0x50000000A000 0x5000
        [mkSlice (0x2000, 0x2008), mkSlice (0x2004, 0x200C)]
        (heapState memShift)).2.mem 0x2000 = 0x50000000A000) := by
  decide

end Become
